import Mathlib

/-!
Verification of the slot-allocation / FIFO-retrieval core of the multi-rack
FG stock board (src/part_table_app.py).

The embedding translates the Python source directly:
  * Python lists are Lean lists; Python indexing (which accepts negative
    indices counting from the end and raises IndexError otherwise) is
    modelled by pyIdx / pyGet / pyLocate returning Option.
  * Python ints are Lean Ints; Python floor division and modulo on a
    positive divisor coincide with Int `/` and `%` (Euclidean).
  * Code that can raise an exception that no caller catches returns none
    (resp. Except.error) at the point of the raise.
  * The wall-clock timestamp string produced by ts_now() is abstracted to a
    Nat supplied by the caller of each operation.
-/

namespace StockBoard

/-- CELL_CAPACITY = 25 (pieces per cell) from the source constants. -/
def CELL_CAPACITY : Int := 25

/-- FIXED_ROWS = 3 from the source constants. -/
def FIXED_ROWS : Nat := 3

/-- RACK_SPACES configuration from the source constants. -/
def RACK_SPACES : List (String × Nat) :=
  [("A", 9), ("B", 15), ("C", 12), ("D", 6), ("E", 24), ("F", 57)]

/-- A cell of a rack grid: `{"Part No": None | str, "Quantity": int}`. -/
structure Cell where
  partNo : Option String
  quantity : Int
deriving DecidableEq

/-- A rack: `{"rows": int, "cols": int, "array": grid, "spaces": int}`. -/
structure Rack where
  rows : Nat
  cols : Nat
  array : List (List Cell)
  spaces : Nat
deriving DecidableEq

/-- One history entry as built by add_history (timestamp abstracted to Nat). -/
structure LedgerEntry where
  timestamp : Nat
  user : String
  action : String
  rack : String
  cell : Int
  partNo : String
  quantity : Int
  note : String
deriving DecidableEq

/-- The mutable session state the claims are about: the racks dict
(association list, keys unique in the source) and the history list. -/
structure InvState where
  racks : List (String × Rack)
  history : List LedgerEntry
deriving DecidableEq

/-- Ceiling division on Nat, the value of Python math.ceil(a / b) for the
small non-negative integers the configuration uses. -/
def ceilDiv (a b : Nat) : Nat := (a + b - 1) / b

/-- Python list-index normalisation: a non-negative index must be < len, a
negative index counts from the end; anything else raises IndexError (none). -/
def pyIdx (len : Nat) (i : Int) : Option Nat :=
  if 0 ≤ i then
    if i < (len : Int) then some i.toNat else none
  else
    if 0 ≤ i + (len : Int) then some (i + (len : Int)).toNat else none

/-- Python `xs[i]` read, returning the normalised index together with the
element (none models an IndexError). -/
def pyLocate (xs : List α) (i : Int) : Option (Nat × α) :=
  match pyIdx xs.length i with
  | none => none
  | some n =>
    match xs[n]? with
    | none => none
    | some a => some (n, a)

/-- Python `xs[i]` read, element only. -/
def pyGet (xs : List α) (i : Int) : Option α :=
  (pyLocate xs i).map (fun p => p.2)

/-- cell_no_to_indices from the source: convert a 1-based cell_no
(bottom-left = 1, left to right, bottom to top) to internal array indices
(row_idx, col_idx) where array[0] is the top row.  The `raise ValueError`
is modelled as none; when cols = 0 the divisions below would raise
ZeroDivisionError in Python (also none — for every rack built by the
initialisation, cols = 0 forces spaces = 0, so the range check fires first
and this branch is unreachable). -/
def cell_no_to_indices (rack : Rack) (cell_no : Int) : Option (Int × Int) :=
  if cell_no < 1 ∨ cell_no > (rack.spaces : Int) then none
  else if (rack.cols : Int) = 0 then none
  else
    some ((rack.rows : Int) - 1 - (cell_no - 1) / (rack.cols : Int),
          (cell_no - 1) % (rack.cols : Int))

/-- indices_to_cell_no from the source: convert internal array indices back
to a 1-based cell_no (bottom-left = 1); `raise ValueError` is none. -/
def indices_to_cell_no (rack : Rack) (row_idx col_idx : Int) : Option Int :=
  if row_idx < 0 ∨ row_idx ≥ (rack.rows : Int) ∨ col_idx < 0 ∨ col_idx ≥ (rack.cols : Int) then
    none
  else
    some (((rack.rows : Int) - 1 - row_idx) * (rack.cols : Int) + col_idx + 1)

/-- The distinct failure branches of the Apply handler, one per st.error
message: "Invalid cell number", "Cell already has a different part",
"Exceeds cell capacity", "Mismatch or insufficient stock". -/
inductive ApplyError where
  | invalidCellNumber
  | differentPart
  | exceedsCapacity
  | mismatchOrInsufficient
deriving DecidableEq

/-- The Action radio button of the stock form. -/
inductive Action where
  | add
  | subtract
deriving DecidableEq

/-- The Action string recorded by add_history. -/
def actionName : Action → String
  | Action.add => "Add"
  | Action.subtract => "Subtract"

/-- The entry add_history(action, rack, cell_no, part_no, qty, user) inserts
at position 0 of the history (note defaults to ""). -/
def mkEntry (t : Nat) (user action rackName : String) (cellNo : Int)
    (partNo : String) (qty : Int) : LedgerEntry :=
  { timestamp := t, user := user, action := action, rack := rackName,
    cell := cellNo, partNo := partNo, quantity := qty, note := "" }

/-- The in-place update of one cell of the Add/Subtract branches, acting on
the cell dict alone.  Add: requires the cell empty or already holding
part_no and quantity + qty ≤ CELL_CAPACITY, then sets Part No and adds qty.
Subtract: requires Part No == part_no and quantity ≥ qty, then subtracts
qty and clears Part No when the quantity reaches zero.  Each else-branch is
the corresponding st.error message. -/
def applyCell (cell : Cell) (partNo : String) (qty : Int) (action : Action) :
    Except ApplyError Cell :=
  match action with
  | Action.add =>
    if cell.partNo = none ∨ cell.partNo = some partNo then
      if cell.quantity + qty ≤ CELL_CAPACITY then
        Except.ok { partNo := some partNo, quantity := cell.quantity + qty }
      else
        Except.error ApplyError.exceedsCapacity
    else
      Except.error ApplyError.differentPart
  | Action.subtract =>
    if cell.partNo = some partNo ∧ qty ≤ cell.quantity then
      Except.ok { partNo := if cell.quantity - qty = 0 then none else cell.partNo,
                  quantity := cell.quantity - qty }
    else
      Except.error ApplyError.mismatchOrInsufficient

/-- Writing the mutated rack back into the racks dict (the Python code
mutates rack_data["array"][row][col] in place; dict keys are unique). -/
def updateRack (racks : List (String × Rack)) (rackName : String) (newRack : Rack) :
    List (String × Rack) :=
  racks.map (fun p => if p.1 = rackName then (p.1, newRack) else p)

/-- The successful end of an Apply: the cell written back into the grid and
the new history entry inserted at the front. -/
def commitState (s : InvState) (rackName : String) (rackData : Rack) (ri : Nat)
    (rowList : List Cell) (ci : Nat) (newCell : Cell) (e : LedgerEntry) : InvState :=
  { racks := updateRack s.racks rackName
      { rackData with array := rackData.array.set ri (rowList.set ci newCell) },
    history := e :: s.history }

/-- The Apply handler of the Input tab.  Resolution: rack_data is read from
the racks dict (rack_ui is always one of its keys; a missing key would be a
KeyError, none), cell_no_to_indices failure is caught and reported as
"Invalid cell number", then the grid is indexed (an IndexError would be
uncaught, none), the cell is updated per applyCell, and on success the new
state carries the mutated grid and the prepended ledger entry. -/
def applyOp (s : InvState) (rackName : String) (cellNo : Int) (partNo : String)
    (qty : Int) (action : Action) (user : String) (t : Nat) :
    Option (InvState × Option ApplyError) :=
  match List.lookup rackName s.racks with
  | none => none
  | some rackData =>
    match cell_no_to_indices rackData cellNo with
    | none => some (s, some ApplyError.invalidCellNumber)
    | some (rowIdx, colIdx) =>
      match pyLocate rackData.array rowIdx with
      | none => none
      | some (ri, rowList) =>
        match pyLocate rowList colIdx with
        | none => none
        | some (ci, cell) =>
          match applyCell cell partNo qty action with
          | Except.error e => some (s, some e)
          | Except.ok newCell =>
            some (commitState s rackName rackData ri rowList ci newCell
                    (mkEntry t user (actionName action) rackName cellNo partNo qty),
                  none)

/-- The FIFO pick the Output tab reports on success. -/
structure FifoPick where
  rack : String
  cell : Int
  qty : Int
deriving DecidableEq

/-- One iteration of the FIFO Finder loop body for entry ev:
skip unless ev is an Add of the searched part; racks.get returning None is
a continue; a ValueError from cell_no_to_indices is a continue; the grid
indexing is outside the try (an IndexError would be uncaught: Except.error);
finally the live cell must still hold the part with positive quantity. -/
def fifoStep (racks : List (String × Rack)) (searchPart : String)
    (ev : LedgerEntry) : Except Unit (Option FifoPick) :=
  if ev.action = "Add" ∧ ev.partNo = searchPart then
    match List.lookup ev.rack racks with
    | none => Except.ok none
    | some rackCheck =>
      match cell_no_to_indices rackCheck ev.cell with
      | none => Except.ok none
      | some (rowIdx, colIdx) =>
        match pyGet rackCheck.array rowIdx with
        | none => Except.error ()
        | some rowList =>
          match pyGet rowList colIdx with
          | none => Except.error ()
          | some cell =>
            if cell.partNo = some searchPart ∧ 0 < cell.quantity then
              Except.ok (some { rack := ev.rack, cell := ev.cell, qty := cell.quantity })
            else
              Except.ok none
  else
    Except.ok none

/-- The FIFO Finder loop: first hit breaks, errors propagate. -/
def fifoLoop (racks : List (String × Rack)) (searchPart : String) :
    List LedgerEntry → Except Unit (Option FifoPick)
  | [] => Except.ok none
  | ev :: rest =>
    match fifoStep racks searchPart ev with
    | Except.error e => Except.error e
    | Except.ok (some r) => Except.ok (some r)
    | Except.ok none => fifoLoop racks searchPart rest

/-- The FIFO Finder of the Output tab: history[0] is most recent, so the
loop runs over reversed(history), i.e. oldest to newest. -/
def findFifo (racks : List (String × Rack)) (history : List LedgerEntry)
    (searchPart : String) : Except Unit (Option FifoPick) :=
  fifoLoop racks searchPart history.reverse

/-- An all-empty grid of the given shape, as built by the initialisation. -/
def mkGrid (rows cols : Nat) : List (List Cell) :=
  List.replicate rows (List.replicate cols { partNo := none, quantity := 0 })

/-- The racks built at session start from RACK_SPACES and FIXED_ROWS. -/
def initRacks : List (String × Rack) :=
  RACK_SPACES.map (fun p =>
    (p.1, { rows := FIXED_ROWS, cols := ceilDiv p.2 FIXED_ROWS,
            array := mkGrid FIXED_ROWS (ceilDiv p.2 FIXED_ROWS), spaces := p.2 }))

/-- The initial session state: fresh racks, empty history. -/
def initState : InvState := { racks := initRacks, history := [] }

/-- The shape every rack built by the initialisation has and keeps: at least
one row, the derived column count, and an array of exactly rows lists of
exactly cols cells. -/
def WFRack (rk : Rack) : Prop :=
  1 ≤ rk.rows ∧ rk.cols = ceilDiv rk.spaces rk.rows ∧
    rk.array.length = rk.rows ∧ ∀ row ∈ rk.array, row.length = rk.cols

/-- Every rack of the dict is well-shaped. -/
def WFRacks (racks : List (String × Rack)) : Prop :=
  ∀ p ∈ racks, WFRack p.2

/-- The per-cell invariant of claim C3. -/
def CellInv (c : Cell) : Prop :=
  0 ≤ c.quantity ∧ c.quantity ≤ CELL_CAPACITY ∧ (c.quantity = 0 ↔ c.partNo = none)

/-- Every cell of every rack satisfies CellInv. -/
def StateInv (s : InvState) : Prop :=
  ∀ p ∈ s.racks, ∀ row ∈ p.2.array, ∀ c ∈ row, CellInv c

/-- States reachable from the initial state by Apply operations issued
through the stock form (whose Quantity widget enforces qty ≥ 1), with a
strictly increasing clock; the middle index counts the successful
operations (the ledger writes). -/
inductive Reach : Nat → Nat → InvState → Prop where
  | init : Reach 0 0 initState
  | stepOk : ∀ {n k s t qty s2} {rackName partNo user : String} {cellNo : Int}
      {action : Action},
      Reach n k s → n < t → 1 ≤ qty →
      applyOp s rackName cellNo partNo qty action user t = some (s2, none) →
      Reach t (k + 1) s2
  | stepErr : ∀ {n k s t qty s2 e} {rackName partNo user : String} {cellNo : Int}
      {action : Action},
      Reach n k s → n < t → 1 ≤ qty →
      applyOp s rackName cellNo partNo qty action user t = some (s2, some e) →
      Reach t k s2

/-! ### Arithmetic of the coordinate mapping -/

/-- Ceiling division covers: a ≤ b * ceilDiv a b when b ≥ 1, hence
spaces ≤ rows * cols for the derived column count. -/
theorem le_mul_ceilDiv (a b : Nat) (hb : 1 ≤ b) : a ≤ b * ceilDiv a b := by
  have h1 := Nat.div_add_mod (a + b - 1) b
  have h2 : (a + b - 1) % b < b := Nat.mod_lt _ hb
  unfold ceilDiv
  generalize b * ((a + b - 1) / b) = x at h1 ⊢
  generalize (a + b - 1) % b = m at h1 h2
  omega

/-- Full description of a successful cell_no_to_indices call on a rack with
the derived column count: the resulting indices, their bounds, and the
linear relation tying them back to the cell number. -/
theorem cell_no_to_indices_spec (rack : Rack) (cell_no : Int)
    (hrows : 1 ≤ rack.rows) (hcols : rack.cols = ceilDiv rack.spaces rack.rows)
    (h1 : 1 ≤ cell_no) (h2 : cell_no ≤ (rack.spaces : Int)) :
    ∃ ri ci, cell_no_to_indices rack cell_no = some (ri, ci) ∧
      0 ≤ ri ∧ ri < (rack.rows : Int) ∧ 0 ≤ ci ∧ ci < (rack.cols : Int) ∧
      ((rack.rows : Int) - 1 - ri) * (rack.cols : Int) + ci + 1 = cell_no := by
  have hsp : 1 ≤ rack.spaces := by
    have : (1 : Int) ≤ (rack.spaces : Int) := le_trans h1 h2
    exact_mod_cast this
  have hmul : rack.spaces ≤ rack.rows * rack.cols := by
    rw [hcols]; exact le_mul_ceilDiv _ _ hrows
  have hcolpos : 1 ≤ rack.cols := by
    rcases Nat.eq_zero_or_pos rack.cols with h0 | h0
    · rw [h0, Nat.mul_zero] at hmul; omega
    · exact h0
  have hcolposZ : (0 : Int) < (rack.cols : Int) := by exact_mod_cast hcolpos
  have hne : ((rack.cols : Int)) ≠ 0 := ne_of_gt hcolposZ
  have hm0 : 0 ≤ cell_no - 1 := by omega
  have hmlt : cell_no - 1 < (rack.rows : Int) * (rack.cols : Int) := by
    have hc : (rack.spaces : Int) ≤ (rack.rows : Int) * (rack.cols : Int) := by
      exact_mod_cast hmul
    omega
  have hdm := Int.ediv_add_emod (cell_no - 1) (rack.cols : Int)
  have hr0 : 0 ≤ (cell_no - 1) % (rack.cols : Int) := Int.emod_nonneg _ hne
  have hrlt : (cell_no - 1) % (rack.cols : Int) < (rack.cols : Int) :=
    Int.emod_lt_of_pos _ hcolposZ
  have hq0 : 0 ≤ (cell_no - 1) / (rack.cols : Int) :=
    Int.ediv_nonneg hm0 (le_of_lt hcolposZ)
  have hqlt : (cell_no - 1) / (rack.cols : Int) < (rack.rows : Int) := by
    by_contra hcon
    push_neg at hcon
    have h5 : (rack.cols : Int) * (rack.rows : Int) ≤
        (rack.cols : Int) * ((cell_no - 1) / (rack.cols : Int)) :=
      mul_le_mul_of_nonneg_left hcon (le_of_lt hcolposZ)
    have h6 : (rack.rows : Int) * (rack.cols : Int) =
        (rack.cols : Int) * (rack.rows : Int) := mul_comm _ _
    linarith
  refine ⟨(rack.rows : Int) - 1 - (cell_no - 1) / (rack.cols : Int),
          (cell_no - 1) % (rack.cols : Int), ?_, by omega, by omega, hr0, hrlt, ?_⟩
  · unfold cell_no_to_indices
    rw [if_neg (by omega), if_neg hne]
  · have h7 : (rack.rows : Int) - 1 - ((rack.rows : Int) - 1 -
        (cell_no - 1) / (rack.cols : Int)) = (cell_no - 1) / (rack.cols : Int) := by
      omega
    rw [h7]
    have h8 : (cell_no - 1) / (rack.cols : Int) * (rack.cols : Int) =
        (rack.cols : Int) * ((cell_no - 1) / (rack.cols : Int)) := mul_comm _ _
    linarith

/-- Bounds recovered from any successful cell_no_to_indices call on a rack
with the derived column count. -/
theorem cell_no_to_indices_bounds (rack : Rack) (cn ri ci : Int)
    (hrows : 1 ≤ rack.rows) (hcols : rack.cols = ceilDiv rack.spaces rack.rows)
    (h : cell_no_to_indices rack cn = some (ri, ci)) :
    0 ≤ ri ∧ ri < (rack.rows : Int) ∧ 0 ≤ ci ∧ ci < (rack.cols : Int) := by
  have hrange : ¬(cn < 1 ∨ cn > (rack.spaces : Int)) := by
    intro hcon
    rw [cell_no_to_indices, if_pos hcon] at h
    exact Option.noConfusion h
  push_neg at hrange
  obtain ⟨ri2, ci2, heq, h0, h1, h2, h3, _⟩ :=
    cell_no_to_indices_spec rack cn hrows hcols (by omega) hrange.2
  rw [heq] at h
  have h4 : ri2 = ri ∧ ci2 = ci := by
    have := Option.some.inj h
    exact ⟨congrArg Prod.fst this, congrArg Prod.snd this⟩
  obtain ⟨h5, h6⟩ := h4
  subst h5; subst h6
  exact ⟨h0, h1, h2, h3⟩

/-- C1: for every rack shape with rows ≥ 1, spaces ≥ 1 and
cols = ceil(spaces / rows), and every cell number in [1, spaces],
converting the cell number to grid coordinates with cell_no_to_indices and
back with indices_to_cell_no is the identity. -/
theorem c1_round_trip (rack : Rack) (cell_no : Int)
    (hrows : 1 ≤ rack.rows) (hsp : 1 ≤ rack.spaces)
    (hcols : rack.cols = ceilDiv rack.spaces rack.rows)
    (h1 : 1 ≤ cell_no) (h2 : cell_no ≤ (rack.spaces : Int)) :
    (cell_no_to_indices rack cell_no).bind
      (fun p => indices_to_cell_no rack p.1 p.2) = some cell_no := by
  obtain ⟨ri, ci, heq, hr0, hr1, hc0, hc1, hlin⟩ :=
    cell_no_to_indices_spec rack cell_no hrows hcols h1 h2
  rw [heq]
  show indices_to_cell_no rack ri ci = some cell_no
  unfold indices_to_cell_no
  rw [if_neg (by omega)]
  rw [hlin]

/-- Concrete shape for witnesses: rack "A" of the configuration
(spaces 9, 3 rows, 3 derived columns), empty grid. -/
def rackA3 : Rack :=
  { rows := 3, cols := 3, array := mkGrid 3 3, spaces := 9 }

/-- Witness for C1: on rack "A" the round trip at cell number 5 holds. -/
theorem c1_round_trip_witness :
    (cell_no_to_indices rackA3 5).bind
      (fun p => indices_to_cell_no rackA3 p.1 p.2) = some 5 :=
  c1_round_trip rackA3 5 (by decide) (by decide) (by decide) (by decide) (by decide)

/-! ### Safety of the grid accesses -/

/-- A Python list read at a non-negative index below the length succeeds and
normalises to that index. -/
theorem pyLocate_nonneg (xs : List α) (i : Int) (h0 : 0 ≤ i)
    (hl : i < (xs.length : Int)) :
    ∃ a, pyLocate xs i = some (i.toNat, a) ∧ xs[i.toNat]? = some a := by
  have hn : i.toNat < xs.length := by omega
  have hg : xs[i.toNat]? = some (xs[i.toNat]) := List.getElem?_eq_getElem hn
  refine ⟨xs[i.toNat], ?_, hg⟩
  simp only [pyLocate, pyIdx, if_pos h0, if_pos hl, hg]

/-- pyGet in terms of pyLocate. -/
theorem pyGet_eq (xs : List α) (i : Int) (n : Nat) (a : α)
    (h : pyLocate xs i = some (n, a)) : pyGet xs i = some a := by
  rw [pyGet, h]
  rfl

/-- C9: on a well-shaped rack (rows ≥ 1, cols = ceil(spaces / rows), grid of
rows lists of cols cells), every valid cell number resolves to indices with
0 ≤ row_idx < rows and 0 ≤ col_idx < cols, and the grid reads the engine
and the FIFO locator perform through them succeed (no out-of-range
indexing). -/
theorem c9_in_bounds (rack : Rack) (cell_no : Int) (hWF : WFRack rack)
    (h1 : 1 ≤ cell_no) (h2 : cell_no ≤ (rack.spaces : Int)) :
    ∃ ri ci, cell_no_to_indices rack cell_no = some (ri, ci) ∧
      0 ≤ ri ∧ ri < (rack.rows : Int) ∧ 0 ≤ ci ∧ ci < (rack.cols : Int) ∧
      ∃ rowList cell, pyGet rack.array ri = some rowList ∧
        pyGet rowList ci = some cell := by
  obtain ⟨hrows, hcols, hlen, hrowlen⟩ := hWF
  obtain ⟨ri, ci, heq, hr0, hr1, hc0, hc1, _⟩ :=
    cell_no_to_indices_spec rack cell_no hrows hcols h1 h2
  have hrl : ri < (rack.array.length : Int) := by rw [hlen]; exact hr1
  obtain ⟨rowList, hloc1, hget1⟩ := pyLocate_nonneg rack.array ri hr0 hrl
  have hmem : rowList ∈ rack.array := List.getElem?_mem hget1
  have hrowl : rowList.length = rack.cols := hrowlen rowList hmem
  have hcl : ci < (rowList.length : Int) := by rw [hrowl]; exact hc1
  obtain ⟨cell, hloc2, _⟩ := pyLocate_nonneg rowList ci hc0 hcl
  exact ⟨ri, ci, heq, hr0, hr1, hc0, hc1, rowList, cell,
    pyGet_eq _ _ _ _ hloc1, pyGet_eq _ _ _ _ hloc2⟩

/-- Witness for C9: on rack "A" cell number 7 resolves in bounds. -/
theorem c9_in_bounds_witness :
    ∃ ri ci, cell_no_to_indices rackA3 7 = some (ri, ci) ∧
      0 ≤ ri ∧ ri < (rackA3.rows : Int) ∧ 0 ≤ ci ∧ ci < (rackA3.cols : Int) ∧
      ∃ rowList cell, pyGet rackA3.array ri = some rowList ∧
        pyGet rowList ci = some cell :=
  c9_in_bounds rackA3 7 (by refine ⟨by decide, by decide, by decide, ?_⟩; decide)
    (by decide) (by decide)

/-- Concrete padded shape for C10: spaces = 10 over 3 rows gives 4 derived
columns, so rows * cols = 12 > 10 and two padding positions exist. -/
def rackPad : Rack :=
  { rows := 3, cols := 4, array := mkGrid 3 4, spaces := 10 }

/-- C10: indices_to_cell_no does not reject padding coordinates: on the
padded shape (rows 3, cols = ceil(10 / 3) = 4, spaces 10), the in-bounds
indices (0, 3) are accepted and map to cell number 12 > spaces, a number
cell_no_to_indices itself rejects. -/
theorem c10_padding_cell_no :
    rackPad.cols = ceilDiv rackPad.spaces rackPad.rows ∧
    rackPad.spaces < rackPad.rows * rackPad.cols ∧
    (0 : Int) ≤ 0 ∧ (0 : Int) < (rackPad.rows : Int) ∧
    (0 : Int) ≤ 3 ∧ (3 : Int) < (rackPad.cols : Int) ∧
    indices_to_cell_no rackPad 0 3 = some 12 ∧
    (rackPad.spaces : Int) < 12 ∧
    cell_no_to_indices rackPad 12 = none := by
  decide

/-! ### Shape of an Apply run -/

/-- Every defined Apply run either fails leaving the state untouched, or
succeeds committing exactly one cell write together with one prepended
ledger entry. -/
theorem applyOp_shape {s : InvState} {rackName : String} {cellNo : Int}
    {partNo : String} {qty : Int} {action : Action} {user : String} {t : Nat}
    {s2 : InvState} {err : Option ApplyError}
    (h : applyOp s rackName cellNo partNo qty action user t = some (s2, err)) :
    (∃ e, err = some e ∧ s2 = s) ∨
    (err = none ∧ ∃ rackData rowIdx colIdx ri rowList ci cell newCell,
      List.lookup rackName s.racks = some rackData ∧
      cell_no_to_indices rackData cellNo = some (rowIdx, colIdx) ∧
      pyLocate rackData.array rowIdx = some (ri, rowList) ∧
      pyLocate rowList colIdx = some (ci, cell) ∧
      applyCell cell partNo qty action = Except.ok newCell ∧
      s2 = commitState s rackName rackData ri rowList ci newCell
             (mkEntry t user (actionName action) rackName cellNo partNo qty)) := by
  unfold applyOp at h
  cases hlk : List.lookup rackName s.racks with
  | none =>
    simp only [hlk] at h
    exact Option.noConfusion h
  | some rackData =>
    simp only [hlk] at h
    cases hidx : cell_no_to_indices rackData cellNo with
    | none =>
      simp only [hidx] at h
      injection h with h1
      injection h1 with ha hb
      subst ha
      exact Or.inl ⟨ApplyError.invalidCellNumber, hb.symm, rfl⟩
    | some p =>
      obtain ⟨rowIdx, colIdx⟩ := p
      simp only [hidx] at h
      cases hrow : pyLocate rackData.array rowIdx with
      | none =>
        simp only [hrow] at h
        exact Option.noConfusion h
      | some q =>
        obtain ⟨ri, rowList⟩ := q
        simp only [hrow] at h
        cases hcol : pyLocate rowList colIdx with
        | none =>
          simp only [hcol] at h
          exact Option.noConfusion h
        | some r =>
          obtain ⟨ci, cell⟩ := r
          simp only [hcol] at h
          cases happ : applyCell cell partNo qty action with
          | error e =>
            simp only [happ] at h
            injection h with h1
            injection h1 with ha hb
            subst ha
            exact Or.inl ⟨e, hb.symm, rfl⟩
          | ok newCell =>
            simp only [happ] at h
            injection h with h1
            injection h1 with ha hb
            subst hb
            exact Or.inr ⟨rfl, rackData, rowIdx, colIdx, ri, rowList, ci, cell,
              newCell, rfl, hidx, hrow, hcol, happ, ha.symm⟩

/-- C6: whenever an Apply run reports an error (any kind), the state is
unchanged — no cell is modified and no ledger entry is appended — and
whenever it succeeds, exactly the one new ledger entry is prepended
together with the cell write. -/
theorem c6_atomic_failure (s : InvState) (rackName : String) (cellNo : Int)
    (partNo : String) (qty : Int) (action : Action) (user : String) (t : Nat)
    (s2 : InvState) (err : Option ApplyError)
    (h : applyOp s rackName cellNo partNo qty action user t = some (s2, err)) :
    (∀ e, err = some e → s2 = s) ∧
    (err = none → ∃ le, s2.history = le :: s.history) := by
  rcases applyOp_shape h with ⟨e, he, hs⟩ | ⟨he, rackData, rowIdx, colIdx, ri,
      rowList, ci, cell, newCell, _, _, _, _, _, hs⟩
  · constructor
    · intro e2 _; exact hs
    · intro hn; rw [hn] at he; exact Option.noConfusion he
  · constructor
    · intro e2 he2; rw [he2] at he; exact Option.noConfusion he
    · intro _
      exact ⟨mkEntry t user (actionName action) rackName cellNo partNo qty,
        by rw [hs]; rfl⟩

/-- Reduction of applyOp to the cell update once the resolution chain is
fixed. -/
theorem applyOp_resolved (s : InvState) (rackName : String) (rackData : Rack)
    (cellNo : Int) (partNo : String) (qty : Int) (action : Action) (user : String)
    (t : Nat) (rowIdx colIdx : Int) (ri : Nat) (rowList : List Cell) (ci : Nat)
    (cell : Cell)
    (hlk : List.lookup rackName s.racks = some rackData)
    (hidx : cell_no_to_indices rackData cellNo = some (rowIdx, colIdx))
    (hrow : pyLocate rackData.array rowIdx = some (ri, rowList))
    (hcol : pyLocate rowList colIdx = some (ci, cell)) :
    applyOp s rackName cellNo partNo qty action user t =
      match applyCell cell partNo qty action with
      | Except.error e => some (s, some e)
      | Except.ok newCell =>
        some (commitState s rackName rackData ri rowList ci newCell
                (mkEntry t user (actionName action) rackName cellNo partNo qty),
              none) := by
  unfold applyOp
  simp only [hlk, hidx, hrow, hcol]

/-- C4: with the target resolved, Add succeeds iff the cell is empty or
already holds the part and the sum stays within capacity; on success it
writes the part and the incremented quantity and prepends an Add entry;
a conflicting part fails with the different-part error, an overflow with
the capacity error. -/
theorem c4_add_correct (s : InvState) (rackName : String) (rackData : Rack)
    (cellNo : Int) (partNo : String) (qty : Int) (user : String) (t : Nat)
    (rowIdx colIdx : Int) (ri : Nat) (rowList : List Cell) (ci : Nat) (cell : Cell)
    (hlk : List.lookup rackName s.racks = some rackData)
    (hidx : cell_no_to_indices rackData cellNo = some (rowIdx, colIdx))
    (hrow : pyLocate rackData.array rowIdx = some (ri, rowList))
    (hcol : pyLocate rowList colIdx = some (ci, cell))
    (hqty : 1 ≤ qty) :
    ((∃ s2, applyOp s rackName cellNo partNo qty Action.add user t =
        some (s2, none)) ↔
      ((cell.partNo = none ∨ cell.partNo = some partNo) ∧
        cell.quantity + qty ≤ CELL_CAPACITY)) ∧
    (((cell.partNo = none ∨ cell.partNo = some partNo) ∧
        cell.quantity + qty ≤ CELL_CAPACITY) →
      applyOp s rackName cellNo partNo qty Action.add user t =
        some (commitState s rackName rackData ri rowList ci
                { partNo := some partNo, quantity := cell.quantity + qty }
                (mkEntry t user "Add" rackName cellNo partNo qty), none)) ∧
    (¬(cell.partNo = none ∨ cell.partNo = some partNo) →
      applyOp s rackName cellNo partNo qty Action.add user t =
        some (s, some ApplyError.differentPart)) ∧
    ((cell.partNo = none ∨ cell.partNo = some partNo) →
      CELL_CAPACITY < cell.quantity + qty →
      applyOp s rackName cellNo partNo qty Action.add user t =
        some (s, some ApplyError.exceedsCapacity)) := by
  have hrun := applyOp_resolved s rackName rackData cellNo partNo qty Action.add
    user t rowIdx colIdx ri rowList ci cell hlk hidx hrow hcol
  by_cases h1 : cell.partNo = none ∨ cell.partNo = some partNo
  · by_cases h2 : cell.quantity + qty ≤ CELL_CAPACITY
    · have happ : applyCell cell partNo qty Action.add =
          Except.ok { partNo := some partNo, quantity := cell.quantity + qty } := by
        unfold applyCell
        rw [if_pos h1, if_pos h2]
      rw [happ] at hrun
      refine ⟨⟨fun _ => ⟨h1, h2⟩, fun _ => ⟨_, hrun⟩⟩, fun _ => hrun,
        fun hc => absurd h1 hc, fun _ hc => absurd h2 (by omega)⟩
    · have happ : applyCell cell partNo qty Action.add =
          Except.error ApplyError.exceedsCapacity := by
        unfold applyCell
        rw [if_pos h1, if_neg h2]
      rw [happ] at hrun
      refine ⟨⟨?_, fun hc => absurd hc.2 h2⟩, fun hc => absurd hc.2 h2,
        fun hc => absurd h1 hc, fun _ _ => hrun⟩
      rintro ⟨s2, hs2⟩
      rw [hrun] at hs2
      injection hs2 with h3
      injection h3 with _ h4
      exact Option.noConfusion h4
  · have happ : applyCell cell partNo qty Action.add =
        Except.error ApplyError.differentPart := by
      unfold applyCell
      rw [if_neg h1]
    rw [happ] at hrun
    refine ⟨⟨?_, fun hc => absurd hc.1 h1⟩, fun hc => absurd hc.1 h1,
      fun _ => hrun, fun hc => absurd hc h1⟩
    rintro ⟨s2, hs2⟩
    rw [hrun] at hs2
    injection hs2 with h3
    injection h3 with _ h4
    exact Option.noConfusion h4

/-- Concrete one-column rack holding part "P1" with quantity 5 in cell 1
(the bottom row of the internal array). -/
def rackP1 : Rack :=
  { rows := 3, cols := 1,
    array := [[{ partNo := none, quantity := 0 }],
              [{ partNo := none, quantity := 0 }],
              [{ partNo := some "P1", quantity := 5 }]],
    spaces := 3 }

/-- State with just rackP1 and an empty history. -/
def sP1 : InvState := { racks := [("A", rackP1)], history := [] }

/-- Witness for C4: on sP1, adding 5 more of "P1" to cell 1 succeeds. -/
theorem c4_add_correct_witness :
    ∃ s2, applyOp sP1 "A" 1 "P1" 5 Action.add "u" 1 = some (s2, none) :=
  (c4_add_correct sP1 "A" rackP1 1 "P1" 5 "u" 1 2 0 2
      [{ partNo := some "P1", quantity := 5 }] 0 { partNo := some "P1", quantity := 5 }
      (by decide) (by decide) (by decide) (by decide) (by decide)).1.mpr (by decide)

/-- Counterexample to C5 as stated: the Subtract branch has one combined
failure ("Mismatch or insufficient stock"); a wrong-part Subtract and an
excessive-quantity Subtract return the same error kind, so no distinct
InsufficientStock kind exists. -/
theorem c5_counterexample :
    applyOp sP1 "A" 1 "P2" 1 Action.subtract "u" 1 =
      some (sP1, some ApplyError.mismatchOrInsufficient) ∧
    applyOp sP1 "A" 1 "P1" 10 Action.subtract "u" 1 =
      some (sP1, some ApplyError.mismatchOrInsufficient) := by
  decide

/-- C5 (amended): with the target resolved, Subtract succeeds iff the cell
holds exactly the part and the quantity suffices; on success it decrements,
clears the part identifier exactly when the quantity reaches zero, and
prepends a Subtract entry; on failure — wrong or absent part as well as
insufficient stock — it reports the single combined
mismatch-or-insufficient error. -/
theorem c5_subtract_correct (s : InvState) (rackName : String) (rackData : Rack)
    (cellNo : Int) (partNo : String) (qty : Int) (user : String) (t : Nat)
    (rowIdx colIdx : Int) (ri : Nat) (rowList : List Cell) (ci : Nat) (cell : Cell)
    (hlk : List.lookup rackName s.racks = some rackData)
    (hidx : cell_no_to_indices rackData cellNo = some (rowIdx, colIdx))
    (hrow : pyLocate rackData.array rowIdx = some (ri, rowList))
    (hcol : pyLocate rowList colIdx = some (ci, cell))
    (hqty : 1 ≤ qty) :
    ((∃ s2, applyOp s rackName cellNo partNo qty Action.subtract user t =
        some (s2, none)) ↔
      (cell.partNo = some partNo ∧ qty ≤ cell.quantity)) ∧
    ((cell.partNo = some partNo ∧ qty ≤ cell.quantity) →
      applyOp s rackName cellNo partNo qty Action.subtract user t =
        some (commitState s rackName rackData ri rowList ci
                { partNo := if cell.quantity - qty = 0 then none else cell.partNo,
                  quantity := cell.quantity - qty }
                (mkEntry t user "Subtract" rackName cellNo partNo qty), none)) ∧
    (¬(cell.partNo = some partNo ∧ qty ≤ cell.quantity) →
      applyOp s rackName cellNo partNo qty Action.subtract user t =
        some (s, some ApplyError.mismatchOrInsufficient)) := by
  have hrun := applyOp_resolved s rackName rackData cellNo partNo qty
    Action.subtract user t rowIdx colIdx ri rowList ci cell hlk hidx hrow hcol
  by_cases h1 : cell.partNo = some partNo ∧ qty ≤ cell.quantity
  · have happ : applyCell cell partNo qty Action.subtract =
        Except.ok { partNo := if cell.quantity - qty = 0 then none else cell.partNo,
                    quantity := cell.quantity - qty } := by
      unfold applyCell
      rw [if_pos h1]
    rw [happ] at hrun
    exact ⟨⟨fun _ => h1, fun _ => ⟨_, hrun⟩⟩, fun _ => hrun, fun hc => absurd h1 hc⟩
  · have happ : applyCell cell partNo qty Action.subtract =
        Except.error ApplyError.mismatchOrInsufficient := by
      unfold applyCell
      rw [if_neg h1]
    rw [happ] at hrun
    refine ⟨⟨?_, fun hc => absurd hc h1⟩, fun hc => absurd hc h1, fun _ => hrun⟩
    rintro ⟨s2, hs2⟩
    rw [hrun] at hs2
    injection hs2 with h3
    injection h3 with _ h4
    exact Option.noConfusion h4

/-- Witness for C5 (amended): on sP1, subtracting all 5 of "P1" from cell 1
succeeds. -/
theorem c5_subtract_correct_witness :
    ∃ s2, applyOp sP1 "A" 1 "P1" 5 Action.subtract "u" 1 = some (s2, none) :=
  (c5_subtract_correct sP1 "A" rackP1 1 "P1" 5 "u" 1 2 0 2
      [{ partNo := some "P1", quantity := 5 }] 0 { partNo := some "P1", quantity := 5 }
      (by decide) (by decide) (by decide) (by decide) (by decide)).1.mpr (by decide)

/-- Witness for C6: a wrong-part Subtract on sP1 fails and the theorem
yields the unchanged state. -/
theorem c6_atomic_failure_witness :
    applyOp sP1 "A" 1 "P2" 1 Action.subtract "u" 1 =
      some (sP1, some ApplyError.mismatchOrInsufficient) ∧ sP1 = sP1 :=
  ⟨by decide,
   (c6_atomic_failure sP1 "A" 1 "P2" 1 Action.subtract "u" 1 sP1
      (some ApplyError.mismatchOrInsufficient) (by decide)).1
     ApplyError.mismatchOrInsufficient rfl⟩

/-- Concrete one-column rack with all cells empty. -/
def rackEmpty3 : Rack := { rows := 3, cols := 1, array := mkGrid 3 1, spaces := 3 }

/-- State with just rackEmpty3 and an empty history. -/
def sEmpty3 : InvState := { racks := [("A", rackEmpty3)], history := [] }

/-- The rack after the qty = 0 Add of the C7 counterexample: cell 1 now
holds "P1" with quantity 0. -/
def rackEmpty3After : Rack :=
  { rows := 3, cols := 1,
    array := [[{ partNo := none, quantity := 0 }],
              [{ partNo := none, quantity := 0 }],
              [{ partNo := some "P1", quantity := 0 }]],
    spaces := 3 }

/-- Full state after that Add. -/
def sEmpty3After : InvState :=
  { racks := [("A", rackEmpty3After)],
    history := [mkEntry 1 "u" "Add" "A" 1 "P1" 0] }

/-- Counterexample to C7 as stated: no InvalidQuantity check exists in the
code; an Add called with qty = 0 on an empty valid cell succeeds (error
none), mutates the cell and appends a ledger entry instead of failing with
no state change. -/
theorem c7_counterexample :
    applyOp sEmpty3 "A" 1 "P1" 0 Action.add "u" 1 = some (sEmpty3After, none) ∧
    sEmpty3After ≠ sEmpty3 := by
  decide

/-- C7 (amended): the allocation code performs no quantity-positivity
check; positivity is enforced only by the form's number input (minimum 1).
Called directly with qty ≤ 0 on an empty in-range cell whose quantity is
within capacity, Add succeeds, writes the part identifier and the (not
increased) quantity, and appends an Add ledger entry. -/
theorem c7_no_quantity_check (s : InvState) (rackName : String) (rackData : Rack)
    (cellNo : Int) (partNo : String) (qty : Int) (user : String) (t : Nat)
    (rowIdx colIdx : Int) (ri : Nat) (rowList : List Cell) (ci : Nat) (cell : Cell)
    (hlk : List.lookup rackName s.racks = some rackData)
    (hidx : cell_no_to_indices rackData cellNo = some (rowIdx, colIdx))
    (hrow : pyLocate rackData.array rowIdx = some (ri, rowList))
    (hcol : pyLocate rowList colIdx = some (ci, cell))
    (hempty : cell.partNo = none) (hcap : cell.quantity ≤ CELL_CAPACITY)
    (hq : qty ≤ 0) :
    applyOp s rackName cellNo partNo qty Action.add user t =
      some (commitState s rackName rackData ri rowList ci
              { partNo := some partNo, quantity := cell.quantity + qty }
              (mkEntry t user "Add" rackName cellNo partNo qty), none) := by
  have hrun := applyOp_resolved s rackName rackData cellNo partNo qty Action.add
    user t rowIdx colIdx ri rowList ci cell hlk hidx hrow hcol
  have happ : applyCell cell partNo qty Action.add =
      Except.ok { partNo := some partNo, quantity := cell.quantity + qty } := by
    unfold applyCell
    rw [if_pos (Or.inl hempty), if_pos (by omega)]
  rw [happ] at hrun
  exact hrun

/-- Witness for C7 (amended): the qty = 0 Add on sEmpty3 succeeds via the
theorem. -/
theorem c7_no_quantity_check_witness :
    applyOp sEmpty3 "A" 1 "P1" 0 Action.add "u" 1 =
      some (commitState sEmpty3 "A" rackEmpty3 2 [{ partNo := none, quantity := 0 }] 0
              { partNo := some "P1", quantity := 0 }
              (mkEntry 1 "u" "Add" "A" 1 "P1" 0), none) :=
  c7_no_quantity_check sEmpty3 "A" rackEmpty3 1 "P1" 0 "u" 1 2 0 2
    [{ partNo := none, quantity := 0 }] 0 { partNo := none, quantity := 0 }
    (by decide) (by decide) (by decide) (by decide) (by decide) (by decide) (by decide)

/-! ### The capacity/occupancy invariant -/

/-- A successful dict lookup names a binding of the association list. -/
theorem mem_of_lookup {racks : List (String × Rack)} {name : String} {rk : Rack}
    (h : List.lookup name racks = some rk) : (name, rk) ∈ racks := by
  induction racks with
  | nil => exact Option.noConfusion h
  | cons p rest ih =>
    obtain ⟨k, v⟩ := p
    rw [List.lookup] at h
    cases hbe : (name == k) with
    | true =>
      rw [hbe] at h
      have hv : v = rk := Option.some.inj h
      have hk : name = k := eq_of_beq hbe
      subst hv
      subst hk
      exact List.mem_cons_self _ _
    | false =>
      rw [hbe] at h
      exact List.mem_cons_of_mem _ (ih h)

/-- The element a successful pyLocate returns sits at the returned index. -/
theorem pyLocate_some {xs : List α} {i : Int} {n : Nat} {a : α}
    (h : pyLocate xs i = some (n, a)) : xs[n]? = some a := by
  unfold pyLocate at h
  cases hx : pyIdx xs.length i with
  | none =>
    simp only [hx] at h
    exact Option.noConfusion h
  | some m =>
    simp only [hx] at h
    cases hg : xs[m]? with
    | none =>
      simp only [hg] at h
      exact Option.noConfusion h
    | some b =>
      simp only [hg] at h
      injection h with h1
      injection h1 with h2 h3
      subst h2
      subst h3
      exact hg

/-- The cell update of a successful Add or Subtract preserves the per-cell
invariant, the form's qty ≥ 1 given. -/
theorem applyCell_ok_inv {cell : Cell} {partNo : String} {qty : Int}
    {action : Action} {newCell : Cell} (hinv : CellInv cell) (hq : 1 ≤ qty)
    (h : applyCell cell partNo qty action = Except.ok newCell) : CellInv newCell := by
  obtain ⟨h0, hcap, hiff⟩ := hinv
  cases action with
  | add =>
    unfold applyCell at h
    by_cases h1 : cell.partNo = none ∨ cell.partNo = some partNo
    · rw [if_pos h1] at h
      by_cases h2 : cell.quantity + qty ≤ CELL_CAPACITY
      · rw [if_pos h2] at h
        injection h with h3
        subst h3
        refine ⟨by show 0 ≤ cell.quantity + qty; omega, h2, ?_⟩
        constructor
        · intro h4
          have h5 : cell.quantity + qty = 0 := h4
          omega
        · intro h4
          exact Option.noConfusion h4
      · rw [if_neg h2] at h
        exact Except.noConfusion h
    · rw [if_neg h1] at h
      exact Except.noConfusion h
  | subtract =>
    unfold applyCell at h
    by_cases h1 : cell.partNo = some partNo ∧ qty ≤ cell.quantity
    · rw [if_pos h1] at h
      injection h with h3
      subst h3
      refine ⟨by show 0 ≤ cell.quantity - qty; omega,
              by show cell.quantity - qty ≤ CELL_CAPACITY; omega, ?_⟩
      show cell.quantity - qty = 0 ↔
        (if cell.quantity - qty = 0 then none else cell.partNo) = none
      by_cases hz : cell.quantity - qty = 0
      · rw [if_pos hz]
        exact ⟨fun _ => rfl, fun _ => hz⟩
      · rw [if_neg hz]
        constructor
        · intro h4
          exact absurd h4 hz
        · intro h4
          rw [h1.1] at h4
          exact Option.noConfusion h4
    · rw [if_neg h1] at h
      exact Except.noConfusion h

/-- Every defined Apply run preserves the state-wide cell invariant, the
form's qty ≥ 1 given. -/
theorem applyOp_preserves_inv {s s2 : InvState} {rackName : String} {cellNo : Int}
    {partNo : String} {qty : Int} {action : Action} {user : String} {t : Nat}
    {err : Option ApplyError} (hinv : StateInv s) (hq : 1 ≤ qty)
    (h : applyOp s rackName cellNo partNo qty action user t = some (s2, err)) :
    StateInv s2 := by
  rcases applyOp_shape h with ⟨e, _, hs⟩ | ⟨_, rackData, rowIdx, colIdx, ri,
      rowList, ci, cell, newCell, hlk, hidx, hrow, hcol, happ, hs⟩
  · rw [hs]
    exact hinv
  · subst hs
    intro p hp row hrowmem c hc
    simp only [commitState, updateRack, List.mem_map] at hp
    obtain ⟨p0, hp0, hfp⟩ := hp
    by_cases hname : p0.1 = rackName
    · rw [if_pos hname] at hfp
      subst hfp
      rcases List.mem_or_eq_of_mem_set hrowmem with hrold | hrnew
      · exact hinv (rackName, rackData) (mem_of_lookup hlk) row hrold c hc
      · subst hrnew
        rcases List.mem_or_eq_of_mem_set hc with hcold | hcnew
        · exact hinv (rackName, rackData) (mem_of_lookup hlk) rowList
            (List.getElem?_mem (pyLocate_some hrow)) c hcold
        · subst hcnew
          have hcellinv : CellInv cell :=
            hinv (rackName, rackData) (mem_of_lookup hlk) rowList
              (List.getElem?_mem (pyLocate_some hrow)) cell
              (List.getElem?_mem (pyLocate_some hcol))
          exact applyCell_ok_inv hcellinv hq happ
    · rw [if_neg hname] at hfp
      subst hfp
      exact hinv p0 hp0 row hrowmem c hc

/-- The initial all-empty racks satisfy the cell invariant. -/
theorem initState_inv : StateInv initState := by
  intro p hp row hrow c hc
  simp only [initState, initRacks, List.mem_map] at hp
  obtain ⟨q, _, hfq⟩ := hp
  subst hfq
  simp only [mkGrid] at hrow
  have hrow2 := List.eq_of_mem_replicate hrow
  subst hrow2
  have hc2 := List.eq_of_mem_replicate hc
  subst hc2
  show CellInv { partNo := none, quantity := 0 }
  unfold CellInv
  exact ⟨by decide, by decide, by decide⟩

/-- C3: along every sequence of Add/Subtract operations issued from the
initial all-empty state (the form enforces qty ≥ 1), every cell of every
rack keeps 0 ≤ quantity ≤ CELL_CAPACITY with quantity = 0 iff the part
identifier is null. -/
theorem c3_capacity_invariant (n k : Nat) (s : InvState) (h : Reach n k s) :
    StateInv s := by
  induction h with
  | init => exact initState_inv
  | stepOk hr hn hq happ ih => exact applyOp_preserves_inv ih hq happ
  | stepErr hr hn hq happ ih => exact applyOp_preserves_inv ih hq happ

/-- Witness for C3: the invariant holds at the initial state. -/
theorem c3_capacity_invariant_witness : StateInv initState :=
  c3_capacity_invariant 0 0 initState Reach.init

/-! ### Ledger ordering -/

/-- Along any reachable state, the history has exactly one entry per
successful operation, newest first, with strictly decreasing timestamps all
bounded by the clock. -/
theorem reach_history (n k : Nat) (s : InvState) (h : Reach n k s) :
    s.history.length = k ∧ (∀ e ∈ s.history, e.timestamp ≤ n) ∧
      List.Chain' (fun a b => b.timestamp < a.timestamp) s.history := by
  induction h with
  | init =>
    refine ⟨rfl, ?_, List.chain'_nil⟩
    intro e he
    exact absurd he (List.not_mem_nil e)
  | stepOk hr hn hq happ ih =>
    obtain ⟨hlen, hbound, hchain⟩ := ih
    rcases applyOp_shape happ with ⟨e, he, _⟩ | ⟨_, rackData, rowIdx, colIdx, ri,
        rowList, ci, cell, newCell, _, _, _, _, _, hs⟩
    · exact Option.noConfusion he
    · subst hs
      refine ⟨?_, ?_, ?_⟩
      · simp only [commitState, List.length_cons, hlen]
      · intro e2 he2
        simp only [commitState, List.mem_cons] at he2
        rcases he2 with he3 | he3
        · subst he3
          exact le_refl _
        · exact le_trans (hbound e2 he3) (le_of_lt hn)
      · simp only [commitState]
        refine List.chain'_cons'.mpr ⟨?_, hchain⟩
        intro y hy
        exact lt_of_le_of_lt (hbound y (List.mem_of_mem_head? hy)) hn
  | stepErr hr hn hq happ ih =>
    obtain ⟨hlen, hbound, hchain⟩ := ih
    rcases applyOp_shape happ with ⟨e2, _, hs⟩ | ⟨he, _⟩
    · subst hs
      refine ⟨hlen, ?_, hchain⟩
      intro e3 he3
      exact le_trans (hbound e3 he3) (le_of_lt hn)
    · exact Option.noConfusion he

/-- C8: every ledger write of an Apply run prepends the one new entry at
the front (a failing run leaves the history untouched, nothing is ever
edited or truncated), and along any reachable state the history lists the
successful operations most recent first, in strictly decreasing timestamp
order. -/
theorem c8_ledger_order :
    (∀ (s : InvState) (rackName : String) (cellNo : Int) (partNo : String)
       (qty : Int) (action : Action) (user : String) (t : Nat) (s2 : InvState)
       (err : Option ApplyError),
       applyOp s rackName cellNo partNo qty action user t = some (s2, err) →
       s2.history = s.history ∨
         s2.history =
           mkEntry t user (actionName action) rackName cellNo partNo qty ::
             s.history) ∧
    (∀ n k s, Reach n k s → s.history.length = k ∧
       List.Chain' (fun a b => b.timestamp < a.timestamp) s.history) := by
  constructor
  · intro s rackName cellNo partNo qty action user t s2 err h
    rcases applyOp_shape h with ⟨e, _, hs⟩ | ⟨_, rackData, rowIdx, colIdx, ri,
        rowList, ci, cell, newCell, _, _, _, _, _, hs⟩
    · left
      rw [hs]
    · right
      rw [hs]
      rfl
  · intro n k s h
    obtain ⟨h1, _, h3⟩ := reach_history n k s h
    exact ⟨h1, h3⟩

/-- Witness for C8: a concrete failing run keeps the history, and the
initial reachable state has an empty, trivially ordered history. -/
theorem c8_ledger_order_witness :
    (sP1.history = sP1.history ∨
      sP1.history = mkEntry 1 "u" "Subtract" "A" 1 "P2" 1 :: sP1.history) ∧
    (initState.history.length = 0 ∧
      List.Chain' (fun a b => b.timestamp < a.timestamp) initState.history) :=
  ⟨c8_ledger_order.1 sP1 "A" 1 "P2" 1 Action.subtract "u" 1 sP1
      (some ApplyError.mismatchOrInsufficient) (by decide),
   c8_ledger_order.2 0 0 initState Reach.init⟩

/-! ### The FIFO locator -/

/-- Spec-side description of one ledger entry's FIFO qualification: an Add
entry of the searched part whose recorded rack is known and whose recorded
cell number resolves to a live cell still holding that part with positive
quantity yields the record of rack, cell number and the cell's current
quantity; every other entry is skipped (none). -/
def fifoSpecHit (racks : List (String × Rack)) (searchPart : String)
    (ev : LedgerEntry) : Option FifoPick :=
  if ev.action = "Add" ∧ ev.partNo = searchPart then
    match List.lookup ev.rack racks with
    | none => none
    | some rk =>
      match cell_no_to_indices rk ev.cell with
      | none => none
      | some (rowIdx, colIdx) =>
        match pyGet rk.array rowIdx with
        | none => none
        | some rowList =>
          match pyGet rowList colIdx with
          | none => none
          | some cell =>
            if cell.partNo = some searchPart ∧ 0 < cell.quantity then
              some { rack := ev.rack, cell := ev.cell, qty := cell.quantity }
            else none
  else none

/-- On well-shaped racks one FIFO loop iteration never crashes and computes
exactly the spec-side qualification of its entry. -/
theorem fifoStep_eq (racks : List (String × Rack)) (searchPart : String)
    (ev : LedgerEntry) (hWF : WFRacks racks) :
    fifoStep racks searchPart ev =
      Except.ok (fifoSpecHit racks searchPart ev) := by
  unfold fifoStep fifoSpecHit
  by_cases h1 : ev.action = "Add" ∧ ev.partNo = searchPart
  · rw [if_pos h1, if_pos h1]
    cases hlk : List.lookup ev.rack racks with
    | none => rfl
    | some rk =>
      dsimp only
      cases hidx : cell_no_to_indices rk ev.cell with
      | none => rfl
      | some pr =>
        obtain ⟨rowIdx, colIdx⟩ := pr
        dsimp only
        have hWFrk : WFRack rk := hWF (ev.rack, rk) (mem_of_lookup hlk)
        obtain ⟨hrows, hcols, hlen, hrowlen⟩ := hWFrk
        obtain ⟨hr0, hr1, hc0, hc1⟩ :=
          cell_no_to_indices_bounds rk ev.cell rowIdx colIdx hrows hcols hidx
        have hrl : rowIdx < (rk.array.length : Int) := by
          rw [hlen]; exact hr1
        obtain ⟨rowList, hloc1, _⟩ := pyLocate_nonneg rk.array rowIdx hr0 hrl
        have hget1 : pyGet rk.array rowIdx = some rowList := pyGet_eq _ _ _ _ hloc1
        have hrowl : rowList.length = rk.cols :=
          hrowlen rowList (List.getElem?_mem (pyLocate_some hloc1))
        have hcl : colIdx < (rowList.length : Int) := by
          rw [hrowl]; exact hc1
        obtain ⟨cell, hloc2, _⟩ := pyLocate_nonneg rowList colIdx hc0 hcl
        have hget2 : pyGet rowList colIdx = some cell := pyGet_eq _ _ _ _ hloc2
        simp only [hget1, hget2]
        by_cases h2 : cell.partNo = some searchPart ∧ 0 < cell.quantity
        · rw [if_pos h2, if_pos h2]
        · rw [if_neg h2, if_neg h2]
  · rw [if_neg h1, if_neg h1]

/-- On well-shaped racks the FIFO loop is the first spec-side hit of its
input list. -/
theorem fifoLoop_eq (racks : List (String × Rack)) (searchPart : String)
    (hWF : WFRacks racks) (l : List LedgerEntry) :
    fifoLoop racks searchPart l =
      Except.ok (l.findSome? (fifoSpecHit racks searchPart)) := by
  induction l with
  | nil => rfl
  | cons ev rest ih =>
    show (match fifoStep racks searchPart ev with
      | Except.error e => Except.error e
      | Except.ok (some r) => Except.ok (some r)
      | Except.ok none => fifoLoop racks searchPart rest) =
      Except.ok ((ev :: rest).findSome? (fifoSpecHit racks searchPart))
    rw [fifoStep_eq racks searchPart ev hWF, List.findSome?_cons]
    cases hq : fifoSpecHit racks searchPart ev with
    | some r => rfl
    | none => exact ih

/-- C2: on every ledger and every well-shaped rack-grid state, the FIFO
lookup equals (without crashing) the first hit of the spec-side
qualification over the ledger read oldest to newest: the first Add entry of
the part whose recorded (rack, cellNo) resolves to a live cell still
holding that part with quantity > 0 yields {rack, cellNo, currentQty} with
the cell's current quantity; all other entries are skipped, and an
exhausted scan yields none (NotFound). -/
theorem c2_fifo_find (racks : List (String × Rack)) (history : List LedgerEntry)
    (searchPart : String) (hWF : WFRacks racks) :
    findFifo racks history searchPart =
      Except.ok (history.reverse.findSome? (fifoSpecHit racks searchPart)) :=
  fifoLoop_eq racks searchPart hWF history.reverse

/-- Rack for the C2 witness: cell 2 (middle array row) holds "P1" qty 5,
cell 1 (bottom) was emptied again. -/
def rackFifo : Rack :=
  { rows := 3, cols := 1,
    array := [[{ partNo := none, quantity := 0 }],
              [{ partNo := some "P1", quantity := 5 }],
              [{ partNo := none, quantity := 0 }]],
    spaces := 3 }

/-- History for the C2 witness, newest first: Add to cell 2 after the
older Add to cell 1 (whose cell no longer holds the part). -/
def histFifo : List LedgerEntry :=
  [mkEntry 2 "u" "Add" "A" 2 "P1" 5, mkEntry 1 "u" "Add" "A" 1 "P1" 5]

/-- Witness for C2: the scan on the concrete state skips the stale oldest
Add and equals the spec-side first hit. -/
theorem c2_fifo_find_witness :
    findFifo [("A", rackFifo)] histFifo "P1" =
      Except.ok (histFifo.reverse.findSome? (fifoSpecHit [("A", rackFifo)] "P1")) :=
  c2_fifo_find [("A", rackFifo)] histFifo "P1"
    (by
      intro p hp
      rw [List.mem_singleton] at hp
      subst hp
      exact ⟨by decide, by decide, by decide, by decide⟩)

end StockBoard
